import Mathlib

/-!
Verification of the prism status-line core (plugin execution and
aggregation engine) against its natural-language specification.

The Go sources are shallowly embedded: the TTL cache's map becomes an
association list queried front-first (so a later `Set` shadows an earlier
entry, matching map overwrite), wall-clock time becomes an explicit
integer parameter, goroutine scheduling becomes an explicit completion
order (a permutation of the slot indices), and subprocess execution
becomes an oracle describing the outcome (timeout or exit code with the
two captured streams).
-/

namespace Prism

/-! ## TTL cache (internal/cache) -/

/-- One cache entry: `cacheItem{value, expiresAt}`.  Time is an integer
timestamp; `time.Now()` is passed explicitly to each operation. -/
structure CacheItem where
  value : String
  expiresAt : Int
deriving DecidableEq, Repr

/-- The cache's `map[string]cacheItem`, embedded as an association list
read front-first. -/
structure Cache where
  items : List (String × CacheItem)
deriving DecidableEq, Repr

/-- `cache.New()`. -/
def Cache.empty : Cache := ⟨[]⟩

/-- Map lookup on the association list: the first binding for the key wins,
matching Go map semantics given that `Set` conses the fresh binding on. -/
def Cache.find (c : Cache) (key : String) : Option CacheItem :=
  (c.items.find? (fun kv => kv.1 == key)).map Prod.snd

/-- `Cache.Get`: returns `(value, true)` iff the key is present and
`time.Now().After(expiresAt)` is false, i.e. `¬ (expiresAt < now)`. -/
def Cache.get (c : Cache) (now : Int) (key : String) : String × Bool :=
  match c.find key with
  | none => ("", false)
  | some item => if item.expiresAt < now then ("", false) else (item.value, true)

/-- `Cache.Set`: unconditionally overwrites, `expiresAt := now + ttl`.
The fresh binding is consed on and shadows any older binding. -/
def Cache.set (c : Cache) (now : Int) (key value : String) (ttl : Int) : Cache :=
  ⟨(key, ⟨value, now + ttl⟩) :: c.items⟩

/-- Go's `len(key) >= len(prefix) && key[:len(prefix)] == prefix`. -/
def goStartsWith (pre key : String) : Bool :=
  List.isPrefixOf pre.data key.data

/-- `Cache.DeleteByPrefix`: deletes every binding whose key starts with
`pre` (the Go loop deletes each matching map key). -/
def Cache.dropPre (c : Cache) (pre : String) : Cache :=
  ⟨c.items.filter (fun kv => !(goStartsWith pre kv.1))⟩

/-- `Cache.Delete`. -/
def Cache.del (c : Cache) (key : String) : Cache :=
  ⟨c.items.filter (fun kv => !(kv.1 == key))⟩

/-! ## Separator and joining (internal/colors, strings.Join) -/

/-- `colors.Dim`. -/
def dimCode : String := "\x1b[2m"

/-- `colors.Reset`. -/
def resetCode : String := "\x1b[0m"

/-- `colors.Separator()`: a middle dot, dimmed, with surrounding spaces. -/
def sepString : String := " " ++ dimCode ++ "·" ++ resetCode ++ " "

/-- Go's `strings.Join(parts, sep)`. -/
def goJoin (sep : String) : List String → String
  | [] => ""
  | [x] => x
  | x :: y :: rest => x ++ sep ++ goJoin sep (y :: rest)

/-- Number of occurrences of a character in a string. -/
def countChar (c : Char) (s : String) : Nat := s.data.count c

/-! ## Line rendering (StatusLine.renderLine)

`renderLine` launches one goroutine per section, each writing its output
into the slot of its own index of a `make([]string, n)` slice; after the
barrier, empty outputs are filtered and the rest joined with the
separator.  The slice is embedded as an index-to-string map, the
nondeterministic completion order as a list `sched` of indices (one entry
per goroutine, so a permutation of `range n`), and each completion as a
pointwise update of the slot map. -/

/-- The slice contents after the goroutines complete in the order `sched`:
slot `i` holds `out i` once goroutine `i` has completed, and the zero
value `""` of `make([]string, n)` before. -/
def runSchedule (out : Nat → String) (sched : List Nat) : Nat → String :=
  sched.foldl (fun res i => Function.update res i (out i)) (fun _ => "")

/-- Reading the slice back in index order after the `wg.Wait()` barrier. -/
def scheduleResults (out : Nat → String) (n : Nat) (sched : List Nat) : List String :=
  (List.range n).map (runSchedule out sched)

/-- The tail of `StatusLine.renderLine`: filter the empty outputs and join
the remainder with `colors.Separator()`. -/
def renderLine (outputs : List String) : String :=
  goJoin sepString (outputs.filter (fun out => out != ""))

/-- `StatusLine.renderLine` under a given goroutine completion order. -/
def renderLineSched (out : Nat → String) (n : Nat) (sched : List Nat) : String :=
  renderLine (scheduleResults out n sched)

/-! ## External plugin execution (internal/plugin/manager.go) -/

/-- The ways `Manager.Execute` can fail: the `ctx.Err() == DeadlineExceeded`
branch, the generic `plugin error: %w (stderr: %s)` branch carrying the
captured standard error, and the input-marshalling branch. -/
inductive ExecErr where
  | timedOut : ExecErr
  | execFailed (stderr : String) : ExecErr
  | marshalFailed : ExecErr
deriving DecidableEq, Repr

/-- Whether an error came from the timeout branch (`plugin timed out`),
distinguishing it from a non-zero-exit / spawn error. -/
def ExecErr.isTimeout : ExecErr → Bool
  | .timedOut => true
  | _ => false

/-- Outcome of the plugin subprocess: killed by the deadline, or exited
with a code having written the two captured streams. -/
inductive ProcOutcome where
  | timeout : ProcOutcome
  | exited (code : Nat) (stdout stderr : String) : ProcOutcome
deriving DecidableEq, Repr

/-- Go's `strings.TrimRight(s, "\n")`: remove every trailing newline. -/
def trimRightNl (s : String) : String :=
  ⟨(s.data.reverse.dropWhile (fun c => c == '\n')).reverse⟩

/-- `Manager.Execute` given the marshalling result and the subprocess
outcome: on success the returned string is the captured standard output
with trailing newlines trimmed; standard error only ever reaches the
error value. -/
def managerExecute (marshalOk : Bool) (r : ProcOutcome) : Except ExecErr String :=
  if marshalOk then
    match r with
    | .timeout => .error .timedOut
    | .exited 0 stdout _ => .ok (trimRightNl stdout)
    | .exited _ _ stderr => .error (.execFailed stderr)
  else .error .marshalFailed

/-! ## Section dispatch (StatusLine.renderSection / runPlugin / runBashPlugin)

The producers visible to one render are embedded as an environment: the
native registry (`Registry.Get` returning a plugin whose `Execute` yields
`output, err`), the cached list of discovered bash plugins, and the
subprocess runner for each of them. -/

/-- A discovered bash plugin (`plugin.Plugin`), reduced to the fields the
aggregator consults. -/
structure BashPlugin where
  name : String
  path : String
deriving DecidableEq, Repr

/-- The producers available during one render. `native name = none` embeds
`Registry.Get(name) == nil`; otherwise the stored value is the result of
the native plugin's `Execute`.  `bashExec` is the result of
`Manager.Execute` on a discovered plugin. -/
structure PluginEnv where
  native : String → Option (Except ExecErr String)
  bashPlugins : List BashPlugin
  bashExec : BashPlugin → Except ExecErr String

/-- `StatusLine.runBashPlugin`: linear scan for the first discovered
plugin with the requested name; absent plugin or failing `Execute` both
yield the empty string. -/
def runBashPlugin (env : PluginEnv) (name : String) : String :=
  match env.bashPlugins.find? (fun p => p.name == name) with
  | none => ""
  | some p =>
    match env.bashExec p with
    | .ok out => out
    | .error _ => ""

/-- `StatusLine.runPlugin`: try the native plugin first; on native error
or absence fall through to the bash plugin. -/
def runPlugin (env : PluginEnv) (name : String) : String :=
  match env.native name with
  | some (.ok out) => out
  | some (.error _) => runBashPlugin env name
  | none => runBashPlugin env name

/-- Outputs of the five built-in formatters that never go through the
plugin path (`renderDir`, `renderModel`, `renderContext`,
`renderLinesChanged`, `renderCost`), abstracted as given strings. -/
structure BuiltinOutputs where
  dir : String
  model : String
  context : String
  linesChanged : String
  cost : String

/-- `StatusLine.renderSection`: the switch over the section name. -/
def renderSection (env : PluginEnv) (bi : BuiltinOutputs) (sec : String) : String :=
  match sec with
  | "dir" => bi.dir
  | "model" => bi.model
  | "context" => bi.context
  | "linesChanged" => bi.linesChanged
  | "cost" => bi.cost
  | "git" => runPlugin env "git"
  | "android_devices" => runPlugin env "android_devices"
  | "devices" => runPlugin env "devices"
  | _ => runPlugin env sec

/-- One line of `Render`: section names resolved and rendered, empties
filtered, rest joined (the scheduled and sequential forms agree by
`renderLine` order-independence, so the sequential form is used here). -/
def renderLineOf (env : PluginEnv) (bi : BuiltinOutputs) (secs : List String) : String :=
  renderLine (secs.map (renderSection env bi))

/-! ## Whole-status-line assembly (StatusLine.Render)

The loop over configured lines: an empty rendered line is dropped; the
update-plugin output is prepended (with a separator) to the line of index
0 when that line is non-empty and the update output is non-empty. -/

/-- The loop body of `Render`, carrying the running line index; `upd` is
the value `runUpdatePlugin()` would produce. -/
def renderLoop (upd : String) : Nat → List String → List String
  | _, [] => []
  | i, line :: rest =>
    if line != "" then
      (if i == 0 && upd != "" then upd ++ sepString ++ line else line)
        :: renderLoop upd (i + 1) rest
    else renderLoop upd (i + 1) rest

/-- `StatusLine.Render` over the already-rendered per-line strings:
surviving lines joined with a single newline. -/
def render (upd : String) (ls : List String) : String :=
  goJoin "\n" (renderLoop upd 0 ls)

/-- Modelled from the spec (for comparison with `render`): the update
indicator, when non-empty, is prepended plus a separator to the first
NON-EMPTY line; empty lines are omitted; survivors joined by newline. -/
def specRender (upd : String) (ls : List String) : String :=
  match ls.filter (fun l => l != "") with
  | [] => ""
  | l :: rest =>
    goJoin "\n" ((if upd != "" then upd ++ sepString ++ l else l) :: rest)

/-! ## Hook dispatch (internal/plugins/interface.go)

`Registry.RunHooks` loops over `GetHookablePlugins()`, which in turn
ranges over the registry's `map[string]NativePlugin`.  Go map iteration
order is unspecified, so the embedding takes the enumeration the runtime
chose as an input `enum`, constrained only to be a permutation of the
hook-capable providers — the loop itself is sequential and is embedded as
a fold that also records which provider was invoked at each step. -/

/-- The closed set of hook event kinds. -/
inductive HookType where
  | idle | busy | sessionStart | sessionEnd | preCompact
deriving DecidableEq, Repr

/-- `HookContext{SessionID, Config}`; the `map[string]any` config is
opaque to the dispatcher and embedded as an association list. -/
structure HookContext where
  sessionID : String
  config : List (String × String)

/-- A hook-capable provider: its `OnHook` method. -/
structure HookPlugin where
  name : String
  onHook : HookType → HookContext → Except ExecErr String

/-- What one provider contributes to the `outputs` slice: its output when
`err == nil && output != ""`, nothing otherwise. -/
def hookOutput (t : HookType) (ctx : HookContext) (h : HookPlugin) : Option String :=
  match h.onHook t ctx with
  | .ok out => if out != "" then some out else none
  | .error _ => none

/-- One iteration of the `RunHooks` loop, recording the invocation. -/
def runHooksStep (t : HookType) (ctx : HookContext)
    (acc : List HookPlugin × List String) (h : HookPlugin) :
    List HookPlugin × List String :=
  match hookOutput t ctx h with
  | some out => (acc.1 ++ [h], acc.2 ++ [out])
  | none => (acc.1 ++ [h], acc.2)

/-- `Registry.RunHooks` over the map enumeration `enum`: first component
is the sequence of providers invoked (in order), second the collected
outputs. -/
def runHooks (enum : List HookPlugin) (t : HookType) (ctx : HookContext) :
    List HookPlugin × List String :=
  enum.foldl (runHooksStep t ctx) ([], [])

/-! ## Idle detection (checkIsIdle) -/

/-- `checkIsIdle`, over the list of file names present in the temp
directory: the session's own `prism-idle-<sessionID>` marker means idle;
otherwise any `prism-idle-*` marker (hooks are active elsewhere) means
busy; no marker at all means hooks are not set up, assume idle. -/
def checkIsIdle (tmpFiles : List String) (sessionID : String) : Bool :=
  if ("prism-idle-" ++ sessionID) ∈ tmpFiles then true
  else if 0 < (tmpFiles.filter (fun f => goStartsWith "prism-idle-" f)).length then false
  else true

/-! ## Concrete instances used to evaluate the statements -/

/-- A concrete section-output assignment: slots 0 and 2 non-empty. -/
def wOut : Nat → String :=
  fun i => if i = 0 then "sectA" else if i = 1 then "" else "sectB"

/-- An environment with no native plugins, a single discovered bash
plugin named `w`, and a subprocess runner that always times out. -/
def failEnv : PluginEnv :=
  { native := fun _ => none
    bashPlugins := [⟨"w", "/plugins/prism-plugin-w.sh"⟩]
    bashExec := fun _ => .error .timedOut }

/-- An environment with no producers at all. -/
def emptyEnv : PluginEnv :=
  { native := fun _ => none
    bashPlugins := []
    bashExec := fun _ => .error .timedOut }

/-- An environment whose single discovered plugin prints one space. -/
def spaceEnv : PluginEnv :=
  { native := fun _ => none
    bashPlugins := [⟨"w", "/plugins/prism-plugin-w.sh"⟩]
    bashExec := fun _ => managerExecute true (.exited 0 " " "") }

/-- Fixed outputs for the built-in formatters. -/
def fixedBi : BuiltinOutputs := ⟨"DIR", "MODEL", "CTX", "LINES", "$0.10"⟩

/-- A hook provider that answers every event with `alpha`. -/
def hookA : HookPlugin := ⟨"a", fun _ _ => .ok "alpha"⟩

/-- A hook provider that answers every event with `beta`. -/
def hookB : HookPlugin := ⟨"b", fun _ _ => .ok "beta"⟩

/-- A hook provider that always fails. -/
def hookE : HookPlugin := ⟨"e", fun _ _ => .error .timedOut⟩

/-- A concrete hook context. -/
def ctx0 : HookContext := ⟨"sess", []⟩

/-- A concrete cache with one entry under each of two prefixes. -/
def twoKeyCache : Cache :=
  (Cache.empty.set 0 "x:a" "va" 10).set 0 "y:b" "vb" 10

/-! ## Helper lemmas -/

/-- Evaluating the fold of slot updates: a slot holds the output of its
goroutine once that goroutine appears in the completion order, and the
initial contents otherwise. -/
lemma foldl_update_apply (out : Nat → String) (sched : List Nat)
    (init : Nat → String) (i : Nat) :
    (sched.foldl (fun res j => Function.update res j (out j)) init) i
      = if i ∈ sched then out i else init i := by
  induction sched generalizing init with
  | nil => simp
  | cons j rest ih =>
    simp only [List.foldl_cons, ih, List.mem_cons]
    by_cases hr : i ∈ rest
    · simp [hr]
    · by_cases hj : i = j
      · subst hj
        simp [hr, Function.update_apply]
      · simp [hr, hj, Function.update_apply]

lemma runSchedule_apply (out : Nat → String) (sched : List Nat) (i : Nat) :
    runSchedule out sched i = if i ∈ sched then out i else "" :=
  foldl_update_apply out sched _ i

/-- Once every goroutine has completed, the slice holds the outputs in
slot (= configuration) order, whatever the completion order was. -/
lemma scheduleResults_eq (out : Nat → String) (n : Nat) (sched : List Nat)
    (hmem : ∀ i < n, i ∈ sched) :
    scheduleResults out n sched = (List.range n).map out := by
  unfold scheduleResults
  refine List.map_congr_left (fun i hi => ?_)
  rw [runSchedule_apply, if_pos (hmem i (List.mem_range.mp hi))]

lemma countChar_append (c : Char) (a b : String) :
    countChar c (a ++ b) = countChar c a + countChar c b := by
  simp [countChar, String.data_append, List.count_append]

/-- Joining `k` parts that are free of the counted character, with a
separator containing it once, puts exactly `k - 1` copies into the
result. -/
lemma countChar_goJoin (c : Char) (sep : String) (hsep : countChar c sep = 1)
    (parts : List String) (hp : ∀ p ∈ parts, countChar c p = 0) :
    countChar c (goJoin sep parts) = parts.length - 1 := by
  induction parts with
  | nil => simp [goJoin, countChar]
  | cons x xs ih =>
    cases xs with
    | nil => simpa [goJoin] using hp x (by simp)
    | cons y rest =>
      have hx : countChar c x = 0 := hp x (by simp)
      have hrest : countChar c (goJoin sep (y :: rest)) = (y :: rest).length - 1 :=
        ih (fun p hm => hp p (by simp [hm]))
      show countChar c (x ++ sep ++ goJoin sep (y :: rest)) = (x :: y :: rest).length - 1
      rw [countChar_append, countChar_append, hx, hsep, hrest]
      simp [Nat.succ_sub_one, Nat.add_comm]

/-- `runPlugin` yields the empty string when the name has neither a
native nor a discovered bash producer. -/
lemma runPlugin_empty (env : PluginEnv) (name : String)
    (hn : env.native name = none)
    (hb : env.bashPlugins.find? (fun p => p.name == name) = none) :
    runPlugin env name = "" := by
  unfold runPlugin runBashPlugin
  rw [hn, hb]

/-- `find?` over a prefix-filtered association list: a key carrying the
prefix can no longer be found. -/
lemma find?_dropPre_none (l : List (String × CacheItem)) (pre k : String)
    (hk : goStartsWith pre k = true) :
    (l.filter (fun kv => !(goStartsWith pre kv.1))).find? (fun kv => kv.1 == k) = none := by
  induction l with
  | nil => rfl
  | cons kv rest ih =>
    by_cases hkv : goStartsWith pre kv.1 = true
    · simp [List.filter_cons, hkv, ih]
    · have hne : (kv.1 == k) = false := by
        by_cases he : kv.1 = k
        · exact absurd (he ▸ hk) hkv
        · simp [he]
      simp [List.filter_cons, hkv, List.find?, hne, ih]

/-- `find?` over a prefix-filtered association list: a key without the
prefix resolves exactly as before. -/
lemma find?_dropPre_frame (l : List (String × CacheItem)) (pre k : String)
    (hk : goStartsWith pre k = false) :
    (l.filter (fun kv => !(goStartsWith pre kv.1))).find? (fun kv => kv.1 == k)
      = l.find? (fun kv => kv.1 == k) := by
  induction l with
  | nil => rfl
  | cons kv rest ih =>
    by_cases he : kv.1 = k
    · have hkv : goStartsWith pre kv.1 = false := he ▸ hk
      have hbeq : (kv.1 == k) = true := by simp [he]
      simp [List.filter_cons, hkv, List.find?_cons, hbeq]
    · have hbeq : (kv.1 == k) = false := by simp [he]
      by_cases hkv : goStartsWith pre kv.1 = true
      · simp [List.filter_cons, hkv, List.find?_cons, hbeq, ih]
      · simp [List.filter_cons, hkv, List.find?_cons, hbeq, ih]

/-- Away from index 0, the `Render` loop is a plain empty-line filter. -/
lemma renderLoop_pos (upd : String) (ls : List String) (i : Nat) (hi : i ≠ 0) :
    renderLoop upd i ls = ls.filter (fun l => l != "") := by
  induction ls generalizing i with
  | nil => simp [renderLoop]
  | cons l rest ih =>
    have hz : (i == 0) = false := by simpa using hi
    by_cases hl : (l != "") = true
    · simp [renderLoop, List.filter_cons, hz, hl, ih (i + 1) (by omega)]
    · simp [renderLoop, List.filter_cons, hz, hl, ih (i + 1) (by omega)]

/-- A string whose characters are all newlines trims to empty. -/
lemma trimRightNl_eq_empty (s : String) (h : ∀ c ∈ s.data, c = '\n') :
    trimRightNl s = "" := by
  unfold trimRightNl
  have hd : s.data.reverse.dropWhile (fun c => c == '\n') = [] := by
    rw [List.dropWhile_eq_nil_iff]
    intro x hx
    simp [h x (List.mem_reverse.mp hx)]
  rw [hd]
  rfl

/-- The `RunHooks` fold, with the accumulators made explicit: every
provider of the enumeration is invoked, in enumeration order, and the
outputs are the non-empty successful results in that order. -/
lemma runHooks_foldl (t : HookType) (ctx : HookContext)
    (enum : List HookPlugin) (acc : List HookPlugin × List String) :
    enum.foldl (runHooksStep t ctx) acc
      = (acc.1 ++ enum, acc.2 ++ enum.filterMap (hookOutput t ctx)) := by
  induction enum generalizing acc with
  | nil => simp
  | cons h rest ih =>
    simp only [List.foldl_cons, List.filterMap_cons]
    rw [ih]
    unfold runHooksStep
    cases hh : hookOutput t ctx h <;> simp [hh]

lemma runHooks_eq (enum : List HookPlugin) (t : HookType) (ctx : HookContext) :
    runHooks enum t ctx = (enum, enum.filterMap (hookOutput t ctx)) := by
  unfold runHooks
  rw [runHooks_foldl]
  simp

/-- The string `pre ++ s` starts with `pre`. -/
lemma goStartsWith_append (pre s : String) : goStartsWith pre (pre ++ s) = true := by
  rw [goStartsWith, List.isPrefixOf_iff_prefix, String.data_append]
  exact List.prefix_append _ _

/-! ## Claim theorems -/

/-- C3 counterexample: the claim ties `Get` success to `now < expiresAt`,
but `Cache.Get` uses Go's strict `time.Now().After(expiresAt)`, so at the
instant `now = expiresAt` an entry written with `ttl = 0` is still
returned as found.  The universally-quantified claim is therefore
false. -/
theorem cache_strict_expiry_counterexample :
    ¬ (∀ (c : Cache) (now : Int) (k : String),
        ((c.get now k).2 = true ↔ ∃ it, c.find k = some it ∧ now < it.expiresAt)) := by
  intro h
  have hfound : ((Cache.empty.set 0 "k" "v" 0).get 0 "k").2 = true := by decide
  obtain ⟨it, hit, hlt⟩ := (h (Cache.empty.set 0 "k" "v" 0) 0 "k").mp hfound
  have : it = ⟨"v", 0⟩ := by
    have : (Cache.empty.set 0 "k" "v" 0).find "k" = some ⟨"v", 0⟩ := by decide
    rw [this] at hit
    exact (Option.some.injEq _ _ ▸ hit).symm
  rw [this] at hlt
  exact absurd hlt (by decide)

/-- C3 (amended): `Get(k)` succeeds with the stored value exactly when an
entry exists and `now ≤ expiresAt` (Go's `After` is strict); absence and
expiry are indistinguishable (both give `("", false)`); and `Set` with
`ttl ≤ 0` writes an entry that every strictly later `Get` reports as not
found. -/
theorem cache_get_set_contract (c : Cache) (now now' : Int) (k v : String) (ttl : Int) :
    ((c.get now k).2 = true ↔ ∃ it, c.find k = some it ∧ now ≤ it.expiresAt)
    ∧ (∀ it, c.find k = some it → now ≤ it.expiresAt → c.get now k = (it.value, true))
    ∧ (c.find k = none → c.get now k = ("", false))
    ∧ (∀ it, c.find k = some it → it.expiresAt < now → c.get now k = ("", false))
    ∧ (ttl ≤ 0 → now < now' → (c.set now k v ttl).get now' k = ("", false)) := by
  refine ⟨?_, ?_, ?_, ?_, ?_⟩
  · constructor
    · intro hfound
      unfold Cache.get at hfound
      cases hf : c.find k with
      | none => rw [hf] at hfound; simp at hfound
      | some it =>
        rw [hf] at hfound
        by_cases hlt : it.expiresAt < now
        · simp [hlt] at hfound
        · exact ⟨it, rfl, Int.not_lt.mp hlt⟩
    · rintro ⟨it, hit, hle⟩
      unfold Cache.get
      simp [hit, Int.not_lt.mpr hle]
  · intro it hit hle
    unfold Cache.get
    simp [hit, Int.not_lt.mpr hle]
  · intro hnone
    unfold Cache.get
    rw [hnone]
  · intro it hit hlt
    unfold Cache.get
    simp [hit, hlt]
  · intro httl hnow
    have hfind : (c.set now k v ttl).find k = some ⟨v, now + ttl⟩ := by
      unfold Cache.set Cache.find
      simp [List.find?_cons]
    unfold Cache.get
    simp [hfind, (by omega : now + ttl < now')]

/-- C3 witness: a fresh entry within its TTL is found with its value; an
entry written with `ttl = 0` is gone one tick later. -/
theorem cache_get_set_contract_witness :
    (Cache.empty.set 0 "k" "v" 5).get 3 "k" = ("v", true)
    ∧ (Cache.empty.set 0 "k" "v" 0).get 1 "k" = ("", false) :=
  ⟨(cache_get_set_contract (Cache.empty.set 0 "k" "v" 5) 3 0 "k" "v" 0).2.1
      ⟨"v", 5⟩ (by decide) (by decide),
   (cache_get_set_contract Cache.empty 0 1 "k" "v" 0).2.2.2.2 (by decide) (by decide)⟩

/-- C9: `DeleteByPrefix` removes exactly the keys that start with the
prefix: such keys can no longer be found (so `Get` misses), every other
binding resolves exactly as before (same value and expiry, so `Get` is
unchanged), and the Go byte test `key[:len(prefix)] == prefix` agrees
with the list-prefix relation on the key's characters. -/
theorem cache_dropPre_exact (c : Cache) (pre k : String) (now : Int) :
    (goStartsWith pre k = true → (c.dropPre pre).find k = none
        ∧ (c.dropPre pre).get now k = ("", false))
    ∧ (goStartsWith pre k = false → (c.dropPre pre).find k = c.find k
        ∧ (c.dropPre pre).get now k = c.get now k)
    ∧ (goStartsWith pre k = true ↔ pre.data <+: k.data) := by
  refine ⟨?_, ?_, ?_⟩
  · intro hk
    have hfind : (c.dropPre pre).find k = none := by
      unfold Cache.dropPre Cache.find
      rw [find?_dropPre_none c.items pre k hk]
      rfl
    refine ⟨hfind, ?_⟩
    unfold Cache.get
    rw [hfind]
  · intro hk
    have hfind : (c.dropPre pre).find k = c.find k := by
      unfold Cache.dropPre Cache.find
      rw [find?_dropPre_frame c.items pre k hk]
    refine ⟨hfind, ?_⟩
    unfold Cache.get
    rw [hfind]
  · unfold goStartsWith
    exact List.isPrefixOf_iff_prefix

/-- C9 witness: deleting prefix `x:` removes the `x:a` entry and leaves
the `y:b` entry (value and expiry intact). -/
theorem cache_dropPre_exact_witness :
    (twoKeyCache.dropPre "x:").find "x:a" = none
    ∧ (twoKeyCache.dropPre "x:").get 5 "x:a" = ("", false)
    ∧ (twoKeyCache.dropPre "x:").find "y:b" = twoKeyCache.find "y:b"
    ∧ (twoKeyCache.dropPre "x:").get 5 "y:b" = twoKeyCache.get 5 "y:b" :=
  ⟨((cache_dropPre_exact twoKeyCache "x:" "x:a" 5).1 (by decide)).1,
   ((cache_dropPre_exact twoKeyCache "x:" "x:a" 5).1 (by decide)).2,
   ((cache_dropPre_exact twoKeyCache "x:" "y:b" 5).2.1 (by decide)).1,
   ((cache_dropPre_exact twoKeyCache "x:" "y:b" 5).2.1 (by decide)).2⟩

/-- C1: whatever the completion order `sched` of the per-section
goroutines (any permutation of the slot indices), the rendered line
equals the non-empty outputs joined in configuration order with the fixed
separator; and when the outputs are free of the separator's middle-dot
character, a line with `K` non-empty sections contains exactly `K - 1`
separator dots. -/
theorem renderLine_config_order (out : Nat → String) (n : Nat) (sched : List Nat)
    (hperm : sched.Perm (List.range n))
    (hdot : ∀ i < n, countChar '·' (out i) = 0) :
    renderLineSched out n sched
      = goJoin sepString (((List.range n).map out).filter (fun o => o != ""))
    ∧ countChar '·' (renderLineSched out n sched)
      = (((List.range n).map out).filter (fun o => o != "")).length - 1 := by
  have hmem : ∀ i < n, i ∈ sched :=
    fun i hi => (hperm.mem_iff).mpr (List.mem_range.mpr hi)
  have hres : renderLineSched out n sched
      = goJoin sepString (((List.range n).map out).filter (fun o => o != "")) := by
    unfold renderLineSched renderLine
    rw [scheduleResults_eq out n sched hmem]
  refine ⟨hres, ?_⟩
  rw [hres]
  refine countChar_goJoin '·' sepString (by decide) _ (fun p hp => ?_)
  obtain ⟨i, hi, rfl⟩ := by
    simpa using (List.mem_filter.mp hp).1
  exact hdot i hi

/-- C1 witness: three sections with one empty producer, completing in the
order 2, 0, 1, still render `sectA · sectB` with exactly one
separator. -/
theorem renderLine_config_order_witness :
    renderLineSched wOut 3 [2, 0, 1]
      = goJoin sepString (((List.range 3).map wOut).filter (fun o => o != ""))
    ∧ countChar '·' (renderLineSched wOut 3 [2, 0, 1])
      = (((List.range 3).map wOut).filter (fun o => o != "")).length - 1 :=
  renderLine_config_order wOut 3 [2, 0, 1] (by decide) (by decide)

/-- C2: whenever the external `Manager.Execute` fails — timeout, non-zero
exit, spawn or marshalling failure, all embedded as `Except.error` — and
no native producer succeeded first, the section's output is the empty
string.  `runPlugin` is a total function into `String`, so the error
never escapes the aggregator and the render always completes. -/
theorem plugin_error_yields_empty (env : PluginEnv) (name : String)
    (p : BashPlugin) (e : ExecErr)
    (hnative : ∀ out, env.native name ≠ some (.ok out))
    (hfind : env.bashPlugins.find? (fun q => q.name == name) = some p)
    (hexec : env.bashExec p = .error e) :
    runPlugin env name = "" := by
  have hbash : runBashPlugin env name = "" := by
    unfold runBashPlugin
    rw [hfind]
    simp [hexec]
  unfold runPlugin
  cases hn : env.native name with
  | none => exact hbash
  | some r =>
    cases r with
    | ok out => exact absurd hn (hnative out)
    | error e' => exact hbash

/-- C2 witness: a discovered plugin whose execution times out renders as
an empty section. -/
theorem plugin_error_yields_empty_witness :
    runPlugin failEnv "w" = "" :=
  plugin_error_yields_empty failEnv "w" ⟨"w", "/plugins/prism-plugin-w.sh"⟩ .timedOut
    (fun _ h => Option.noConfusion h) (by decide) rfl

/-- C4 counterexample: `GetHookablePlugins` ranges over the registry's Go
map, whose iteration order is unspecified; two enumerations that are
permutations of the same registered providers produce differently-ordered
outputs, so the dispatch is neither deterministic nor fixed to
registration order. -/
theorem runHooks_order_counterexample :
    List.Perm [hookB, hookA] [hookA, hookB]
    ∧ (runHooks [hookB, hookA] .idle ctx0).2 ≠ (runHooks [hookA, hookB] .idle ctx0).2 := by
  refine ⟨List.Perm.swap hookA hookB [], ?_⟩
  rw [runHooks_eq, runHooks_eq]
  intro h
  simp [hookOutput, hookA, hookB] at h

/-- C4 (amended): the dispatcher invokes each hook-capable provider
exactly once, sequentially, in the order of the map enumeration the
runtime chose — a permutation of the registered providers, but not
necessarily registration order and not deterministic; a provider that
returns an error contributes no output and the surrounding providers are
still invoked with their outputs kept in enumeration order. -/
theorem runHooks_sequential_once (registered enum : List HookPlugin)
    (t : HookType) (ctx : HookContext)
    (hperm : enum.Perm registered) :
    (runHooks enum t ctx).1 = enum
    ∧ (runHooks enum t ctx).1.Perm registered
    ∧ (runHooks enum t ctx).2 = enum.filterMap (hookOutput t ctx)
    ∧ (∀ xs h ys e, enum = xs ++ h :: ys → h.onHook t ctx = .error e →
        (runHooks enum t ctx).2 = (runHooks xs t ctx).2 ++ (runHooks ys t ctx).2) := by
  refine ⟨?_, ?_, ?_, ?_⟩
  · rw [runHooks_eq]
  · rw [runHooks_eq]
    exact hperm
  · rw [runHooks_eq]
  · intro xs h ys e hsplit herr
    subst hsplit
    rw [runHooks_eq, runHooks_eq, runHooks_eq]
    simp [List.filterMap_append, List.filterMap_cons, hookOutput, herr]

/-- C4 witness: with the enumeration `[hookE, hookA]` (a permutation of
the registered `[hookA, hookE]`), both providers are invoked in that
order and the failing provider is skipped without stopping the
other. -/
theorem runHooks_sequential_once_witness :
    (runHooks [hookE, hookA] .idle ctx0).1 = [hookE, hookA]
    ∧ (runHooks [hookE, hookA] .idle ctx0).2
        = (runHooks [] .idle ctx0).2 ++ (runHooks [hookA] .idle ctx0).2 :=
  ⟨(runHooks_sequential_once [hookA, hookE] [hookE, hookA] .idle ctx0
      (List.Perm.swap hookA hookE [])).1,
   (runHooks_sequential_once [hookA, hookE] [hookE, hookA] .idle ctx0
      (List.Perm.swap hookA hookE [])).2.2.2 [] hookE [hookA] .timedOut rfl rfl⟩

/-- C5 counterexample: when the first configured line renders empty, the
code drops the update indicator entirely instead of prepending it to the
first non-empty line as the claim demands (`specRender` is the claim's
own reading). -/
theorem render_update_counterexample :
    render "U" ["", "x"] = "x"
    ∧ specRender "U" ["", "x"] = "U" ++ sepString ++ "x"
    ∧ render "U" ["", "x"] ≠ specRender "U" ["", "x"] := by
  decide

/-- C5 (amended): empty rendered lines are omitted and the survivors are
joined with a single newline; the update indicator is prepended, with a
separator, only to the line configured first and only when that line
itself renders non-empty — if the first configured line is empty, no
indicator appears anywhere (and the update plugin is not consulted). -/
theorem render_characterization (upd : String) (ls : List String) :
    render upd ls
      = goJoin "\n"
          (match ls with
           | [] => []
           | l :: rest =>
             if l != "" && upd != "" then
               (upd ++ sepString ++ l) :: rest.filter (fun x => x != "")
             else ls.filter (fun x => x != "")) := by
  cases ls with
  | nil => rfl
  | cons l rest =>
    show goJoin "\n" (renderLoop upd 0 (l :: rest)) = _
    by_cases hl : (l != "") = true
    · by_cases hu : (upd != "") = true
      · simp [renderLoop, hl, hu, renderLoop_pos upd rest 1 (by omega)]
      · simp [renderLoop, hl, hu, renderLoop_pos upd rest 1 (by omega), List.filter_cons]
    · simp [renderLoop, hl, renderLoop_pos upd rest 1 (by omega), List.filter_cons]

/-- C6: on exit code 0 `Execute` returns the captured standard output
with trailing newlines trimmed, and the result does not depend on what
was written to standard error (standard error reaches only the error
value of the non-zero-exit branch); the timeout error and the
non-zero-exit error are distinct, distinguishable values. -/
theorem execute_contract (stdout stderr stderr' : String) (code : Nat)
    (hc : code ≠ 0) :
    managerExecute true (.exited 0 stdout stderr) = .ok (trimRightNl stdout)
    ∧ managerExecute true (.exited 0 stdout stderr)
        = managerExecute true (.exited 0 stdout stderr')
    ∧ managerExecute true (.exited code stdout stderr) = .error (.execFailed stderr)
    ∧ managerExecute true .timeout = .error .timedOut
    ∧ ExecErr.timedOut.isTimeout = true
    ∧ (ExecErr.execFailed stderr).isTimeout = false := by
  refine ⟨rfl, rfl, ?_, rfl, rfl, rfl⟩
  cases code with
  | zero => exact absurd rfl hc
  | succ m => rfl

/-- C6 witness: stdout `out\n` comes back as `out`; exit code 1 is an
`execFailed` carrying the standard error, not a timeout. -/
theorem execute_contract_witness :
    managerExecute true (.exited 0 "out\n" "oops") = .ok (trimRightNl "out\n")
    ∧ trimRightNl "out\n" = "out"
    ∧ managerExecute true (.exited 1 "out\n" "oops") = .error (.execFailed "oops")
    ∧ (ExecErr.execFailed "oops").isTimeout = false :=
  ⟨(execute_contract "out\n" "oops" "x" 1 (by decide)).1, by decide,
   (execute_contract "out\n" "oops" "x" 1 (by decide)).2.2.1,
   (execute_contract "out\n" "oops" "x" 1 (by decide)).2.2.2.2.2⟩

/-- C7 counterexample: `Execute` trims only trailing newlines, so a
plugin that prints a single space (exit 0) yields the non-empty output
`" "`, the section is not hidden, and it does contribute a separator. -/
theorem whitespace_output_counterexample :
    managerExecute true (.exited 0 " " "") = .ok " "
    ∧ runBashPlugin spaceEnv "w" = " "
    ∧ (" " : String) ≠ ""
    ∧ renderLine ["a", " "] = "a" ++ sepString ++ " "
    ∧ renderLine ["a", " "] ≠ renderLine ["a"] :=
  ⟨rfl, rfl, by decide, by decide, by decide⟩

/-- C7 (amended): only output that is empty after stripping trailing
newlines — i.e. consists solely of newlines, or is empty — hides the
section: such a plugin produces `""`, and an empty output is absent from
the rendered line and contributes no separator.  Whitespace other than
trailing newlines survives and is displayed. -/
theorem newline_only_output_hidden (s stderr : String)
    (h : ∀ c ∈ s.data, c = '\n') :
    managerExecute true (.exited 0 s stderr) = .ok ""
    ∧ (∀ pre post, renderLine (pre ++ "" :: post) = renderLine (pre ++ post)) := by
  constructor
  · show Except.ok (trimRightNl s) = Except.ok ""
    rw [trimRightNl_eq_empty s h]
  · intro pre post
    unfold renderLine
    rw [List.filter_append, List.filter_append, List.filter_cons]
    simp

/-- C7 witness: output `\n\n` renders as a hidden section. -/
theorem newline_only_output_hidden_witness :
    managerExecute true (.exited 0 "\n\n" "e") = .ok ""
    ∧ renderLine ["a", "", "b"] = renderLine ["a", "b"] :=
  ⟨(newline_only_output_hidden "\n\n" "e" (by decide)).1,
   (newline_only_output_hidden "\n\n" "e" (by decide)).2 ["a"] ["b"]⟩

/-- C8: a section name that is none of the five built-in formatters, has
no native registry entry and no discovered bash plugin renders as the
empty string, and a configured line containing it renders exactly as the
same line without it. -/
theorem unknown_section_invisible (env : PluginEnv) (bi : BuiltinOutputs) (sec : String)
    (h1 : sec ≠ "dir") (h2 : sec ≠ "model") (h3 : sec ≠ "context")
    (h4 : sec ≠ "linesChanged") (h5 : sec ≠ "cost")
    (hn : env.native sec = none)
    (hb : env.bashPlugins.find? (fun p => p.name == sec) = none) :
    renderSection env bi sec = ""
    ∧ (∀ pre post, renderLineOf env bi (pre ++ sec :: post)
        = renderLineOf env bi (pre ++ post)) := by
  have hempty : renderSection env bi sec = "" := by
    have hrp : runPlugin env sec = "" := runPlugin_empty env sec hn hb
    unfold renderSection
    split
    · exact absurd rfl h1
    · exact absurd rfl h2
    · exact absurd rfl h3
    · exact absurd rfl h4
    · exact absurd rfl h5
    · exact hrp
    · exact hrp
    · exact hrp
    · exact hrp
  refine ⟨hempty, fun pre post => ?_⟩
  unfold renderLineOf renderLine
  rw [List.map_append, List.map_append, List.map_cons,
    List.filter_append, List.filter_append, List.filter_cons, hempty]
  simp

/-- C8 witness: the spec's own scenario — `["dir", "bogus", "model"]`
renders exactly as `["dir", "model"]`, and `bogus` produces nothing. -/
theorem unknown_section_invisible_witness :
    renderSection emptyEnv fixedBi "bogus" = ""
    ∧ renderLineOf emptyEnv fixedBi ["dir", "bogus", "model"]
        = renderLineOf emptyEnv fixedBi ["dir", "model"] :=
  ⟨(unknown_section_invisible emptyEnv fixedBi "bogus" (by decide) (by decide)
      (by decide) (by decide) (by decide) rfl rfl).1,
   (unknown_section_invisible emptyEnv fixedBi "bogus" (by decide) (by decide)
      (by decide) (by decide) (by decide) rfl rfl).2 ["dir"] ["model"]⟩

/-- C10: the idle flag handed to every plugin comes from temp-directory
marker files: the session's own `prism-idle-<id>` marker forces idle;
otherwise any `prism-idle-*` marker (hooks active for another session)
forces busy; and with no marker files at all (hooks not set up) the
default is idle. -/
theorem checkIsIdle_characterization (tmpFiles : List String) (sid : String) :
    (("prism-idle-" ++ sid) ∈ tmpFiles → checkIsIdle tmpFiles sid = true)
    ∧ (("prism-idle-" ++ sid) ∉ tmpFiles →
        (∃ f ∈ tmpFiles, goStartsWith "prism-idle-" f = true) →
        checkIsIdle tmpFiles sid = false)
    ∧ ((∀ f ∈ tmpFiles, goStartsWith "prism-idle-" f = false) →
        checkIsIdle tmpFiles sid = true) := by
  refine ⟨?_, ?_, ?_⟩
  · intro hown
    unfold checkIsIdle
    rw [if_pos hown]
  · intro hown hex
    obtain ⟨f, hf, hpre⟩ := hex
    have hfil : f ∈ tmpFiles.filter (fun g => goStartsWith "prism-idle-" g) :=
      List.mem_filter.mpr ⟨hf, hpre⟩
    have hlen : 0 < (tmpFiles.filter (fun g => goStartsWith "prism-idle-" g)).length :=
      List.length_pos.mpr (fun hnil => by rw [hnil] at hfil; exact absurd hfil (by simp))
    unfold checkIsIdle
    rw [if_neg hown, if_pos hlen]
  · intro hnone
    unfold checkIsIdle
    by_cases hown : ("prism-idle-" ++ sid) ∈ tmpFiles
    · rw [if_pos hown]
    · have hfil : tmpFiles.filter (fun g => goStartsWith "prism-idle-" g) = [] := by
        rw [List.filter_eq_nil_iff]
        intro f hf
        rw [hnone f hf]
        exact Bool.false_ne_true
      rw [if_neg hown, hfil]
      simp

/-- C10 witness: own marker present → idle; only a foreign marker →
busy; no markers → idle. -/
theorem checkIsIdle_characterization_witness :
    checkIsIdle ["prism-idle-abc"] "abc" = true
    ∧ checkIsIdle ["prism-idle-zzz"] "abc" = false
    ∧ checkIsIdle [] "abc" = true :=
  ⟨(checkIsIdle_characterization ["prism-idle-abc"] "abc").1 (by decide),
   (checkIsIdle_characterization ["prism-idle-zzz"] "abc").2.1 (by decide)
     ⟨"prism-idle-zzz", by decide, by decide⟩,
   (checkIsIdle_characterization [] "abc").2.2 (by simp)⟩

end Prism
